import Mathlib

/-!
Shallow embedding of the Hailo incremental autofocus path of
`src/B016712MP/AutoFocus.py` (class `AutoFocus`): the mutable fields used by
`startFocus_hailo` / `stepFocus_hailo`, the `filter` score smoother, and the
per-frame step function.  Python ints are modelled as `Int` and the
string-tagged stage field as a `String`.  Sharpness scores are Python floats;
they are modelled over an arbitrary linearly ordered commutative ring `α`
(the operations the code applies to scores are comparison and subtraction
only), so theorems hold for `ℚ` and `ℝ`, while concrete witness runs
instantiate `α := ℤ` so the kernel can evaluate them.  A video frame is
modelled by the sharpness value its `laplacian2` computation would produce
(`none` for a missing/malformed frame, on which `cv2.cvtColor` raises).  The
focuser is a collaborator: `focuser.set(Focuser.OPT_FOCUS, p)` is modelled
by a function `Int → Except String Unit` supplied by the environment, and each
step additionally reports the list of positions it attempted to command,
together with the number of sharpness computations it performed.  Exceptions
propagate as `Except.error`, with all field mutations made before the raise
kept, as in Python.
-/

namespace MerguiAF

variable {α : Type} [LinearOrderedCommRing α]

/-- The actuator port: `focuser.set(Focuser.OPT_FOCUS, p)` either succeeds or
raises.  The environment chooses the behaviour. -/
abbrev Act := Int → Except String Unit

/-- An actuator whose writes always succeed. -/
def okAct : Act := fun _ => Except.ok ()

/-- The mutable fields of class `AutoFocus` used by the Hailo incremental
mode, as assigned in `__init__` (lines 44-59) plus the class attributes
`MAX_FOCUS_VALUE`, `value_buffer` and `coarse_step_size` (lines 37-42).
`α` is the type of sharpness scores (floats in the source). -/
structure AFState (α : Type) where
  h_stage : String
  h_step : Int
  h_threshold : α
  h_max_dec_count : Int
  h_max_index : Int
  h_max_value : α
  h_last_value : α
  h_dec_count : Int
  h_focal_distance : Int
  value_buffer : List α
  MAX_FOCUS_VALUE : Int
  coarse_step_size : Int
  deriving Repr, DecidableEq

/-- The state right after `AutoFocus.__init__`: stage `"idle"`, zeroed scan
fields, class defaults `MAX_FOCUS_VALUE = 1100`, `coarse_step_size = 100`,
empty `value_buffer`. -/
def initState : AFState α :=
  { h_stage := "idle"
    h_step := 0
    h_threshold := 0
    h_max_dec_count := 0
    h_max_index := 0
    h_max_value := 0
    h_last_value := -1
    h_dec_count := 0
    h_focal_distance := 0
    value_buffer := []
    MAX_FOCUS_VALUE := 1100
    coarse_step_size := 100 }

/-- `AutoFocus.filter` (lines 80-87): append the raw value to the buffer;
when the buffer holds `max_len = 3` samples, sort them, pop the oldest and
return the sorted element at index `math.ceil(max_len / 2)` (for the positive
integer `max_len` this ceiling is `(max_len + 1) / 2 = 2`); otherwise return
the raw value.  The mutated buffer is returned alongside the result. -/
def filter (value_buffer : List α) (value : α) : α × List α :=
  let max_len : Nat := 3
  let buf := value_buffer ++ [value]
  if buf.length = max_len then
    let sort_list := List.insertionSort (· ≤ ·) buf
    (sort_list.getD ((max_len + 1) / 2) 0, buf.drop 1)
  else
    (value, buf)

/-- `AutoFocus.laplacian2` applied to the frame handed to
`stepFocus_hailo`: a valid frame yields its Laplacian-variance sharpness
score; a missing/malformed frame makes `cv2.cvtColor` raise. -/
def laplacian2 (frame : Option α) : Except String α :=
  match frame with
  | none => Except.error "cv2.error"
  | some v => Except.ok v

/-- `AutoFocus._hailo_init_stage` (lines 270-286): reset the score buffer and
all scan fields for the given stage, then command the actuator to the start
position.  Every field is assigned before the `focuser.set` call, so on an
actuator fault the returned state is fully updated while the error
propagates. -/
def hailoInitStage (act : Act) (s : AFState α) (step : Int) (threshold : α)
    (max_dec_count : Int) (start_pos : Int) (stage : String) :
    Except String Unit × AFState α × List Int :=
  let s := { s with
    value_buffer := []
    h_stage := stage
    h_step := step
    h_threshold := threshold
    h_max_dec_count := max_dec_count
    h_max_index := start_pos
    h_max_value := 0
    h_last_value := -1
    h_dec_count := 0
    h_focal_distance := start_pos }
  (act s.h_focal_distance, s, [s.h_focal_distance])

/-- `AutoFocus.startFocus_hailo` (lines 288-304): set `MAX_FOCUS_VALUE` from
`get_end_point()` and enter the coarse stage at `get_starting_point()` with
step `coarse_step_size`, threshold 1, `max_dec_count` 2.  The two
zoom-table lookups live in the collaborator `Focuser`, so their values are
parameters. -/
def startFocus_hailo (act : Act) (s : AFState α)
    (end_point starting_point : Int) : Except String Unit × AFState α × List Int :=
  let s := { s with MAX_FOCUS_VALUE := end_point }
  hailoInitStage act s s.coarse_step_size 1 2 starting_point "coarse"

/-- The scoring block of `stepFocus_hailo` (lines 320-340): filter the raw
sharpness value, update the best candidate when the filtered value strictly
exceeds `h_max_value`, update the decrease counter from the difference with
`h_last_value`, and record the filtered value as `h_last_value`. -/
def scorePhase (s : AFState α) (rawVal : α) : AFState α :=
  let fv := filter s.value_buffer rawVal
  let val := fv.1
  let s1 := { s with value_buffer := fv.2 }
  let s2 :=
    if val > s1.h_max_value then
      { s1 with h_max_value := val, h_max_index := s1.h_focal_distance }
    else s1
  let s3 :=
    if s2.h_last_value ≥ 0 then
      let diff := s2.h_last_value - val
      if diff > s2.h_threshold then { s2 with h_dec_count := s2.h_dec_count + 1 }
      else if diff ≠ 0 then { s2 with h_dec_count := 0 }
      else s2
    else s2
  { s3 with h_last_value := val }

/-- The stage-termination condition of `stepFocus_hailo` (lines 342-345):
the decrease counter exceeded its bound, or the position counter passed
`MAX_FOCUS_VALUE`. -/
def stageShouldEnd (s : AFState α) : Prop :=
  s.h_max_dec_count < s.h_dec_count ∨ s.MAX_FOCUS_VALUE < s.h_focal_distance

instance (s : AFState α) : Decidable (stageShouldEnd s) := by
  unfold stageShouldEnd; infer_instance

instance : DecidableEq (Except String (Bool × Option Int)) := fun a b =>
  match a, b with
  | Except.ok x, Except.ok y =>
    if h : x = y then isTrue (by rw [h]) else isFalse (fun c => by cases c; exact h rfl)
  | Except.error e, Except.error f =>
    if h : e = f then isTrue (by rw [h]) else isFalse (fun c => by cases c; exact h rfl)
  | Except.ok _, Except.error _ => isFalse (fun c => by cases c)
  | Except.error _, Except.ok _ => isFalse (fun c => by cases c)

/-- What one `stepFocus_hailo` call produces: the Python return value (or the
propagated exception), the object state after the call, the positions passed
to `focuser.set(OPT_FOCUS, ·)` during the call in order, and how many
sharpness computations (`laplacian2` on the frame) completed. -/
structure StepResult (α : Type) where
  ret : Except String (Bool × Option Int)
  st : AFState α
  sets : List Int
  scored : Nat
  deriving Repr, DecidableEq

/-- `AutoFocus.stepFocus_hailo` (lines 306-378), one per-frame step:
idle/done short-circuit, one sharpness computation and filter pass, best and
decrease-counter updates, stage termination (coarse hands over to the fine
stage via `_hailo_init_stage` with step 5, threshold 1, `max_dec_count` 3 and
start `max(h_max_index - coarse_step_size, 0)`; otherwise the best position is
commanded and the stage becomes `"done"`), else advance the position counter
by `h_step` and command it when it is still within `MAX_FOCUS_VALUE`. -/
def stepFocus_hailo (act : Act) (s : AFState α) (frame : Option α) : StepResult α :=
  if s.h_stage = "idle" ∨ s.h_stage = "done" then
    { ret := Except.ok (decide (s.h_stage = "done"),
        if s.h_stage = "done" then some s.h_max_index else none)
      st := s, sets := [], scored := 0 }
  else
    match laplacian2 frame with
    | Except.error e => { ret := Except.error e, st := s, sets := [], scored := 0 }
    | Except.ok rawVal =>
      let s1 := scorePhase s rawVal
      if stageShouldEnd s1 then
        if s1.h_stage = "coarse" then
          let coarse_best := s1.h_max_index - s1.coarse_step_size
          let coarse_best := if coarse_best < 0 then 0 else coarse_best
          let r := hailoInitStage act s1 5 1 3 coarse_best "fine"
          { ret := r.1.map (fun _ => (false, none))
            st := r.2.1, sets := r.2.2, scored := 1 }
        else
          match act s1.h_max_index with
          | Except.ok _ =>
            { ret := Except.ok (true, some s1.h_max_index)
              st := { s1 with h_stage := "done" }
              sets := [s1.h_max_index], scored := 1 }
          | Except.error e =>
            { ret := Except.error e, st := s1, sets := [s1.h_max_index], scored := 1 }
      else
        let s2 := { s1 with h_focal_distance := s1.h_focal_distance + s1.h_step }
        if s2.h_focal_distance ≤ s2.MAX_FOCUS_VALUE then
          { ret := (act s2.h_focal_distance).map (fun _ => (false, none)), st := s2
            sets := [s2.h_focal_distance], scored := 1 }
        else
          { ret := Except.ok (false, none), st := s2, sets := [], scored := 1 }

/-- Drive `stepFocus_hailo` over a list of frames, collecting the final
state, all commanded positions and the per-call return values. -/
def runSteps (act : Act) (s : AFState α) (frames : List (Option α)) :
    AFState α × List Int × List (Except String (Bool × Option Int)) :=
  match frames with
  | [] => (s, [], [])
  | f :: fs =>
    let r := stepFocus_hailo act s f
    let rest := runSteps act r.st fs
    (rest.1, r.sets ++ rest.2.1, r.ret :: rest.2.2)

/-! Small facts about `scorePhase`: it touches only the score-tracking
fields, never the stage tag, the step size, the thresholds, the position
counter or the range bound. -/

@[simp] theorem scorePhase_h_stage (s : AFState α) (v : α) :
    (scorePhase s v).h_stage = s.h_stage := by
  unfold scorePhase; dsimp only; split_ifs <;> rfl

@[simp] theorem scorePhase_h_step (s : AFState α) (v : α) :
    (scorePhase s v).h_step = s.h_step := by
  unfold scorePhase; dsimp only; split_ifs <;> rfl

@[simp] theorem scorePhase_h_threshold (s : AFState α) (v : α) :
    (scorePhase s v).h_threshold = s.h_threshold := by
  unfold scorePhase; dsimp only; split_ifs <;> rfl

@[simp] theorem scorePhase_h_max_dec_count (s : AFState α) (v : α) :
    (scorePhase s v).h_max_dec_count = s.h_max_dec_count := by
  unfold scorePhase; dsimp only; split_ifs <;> rfl

@[simp] theorem scorePhase_h_focal_distance (s : AFState α) (v : α) :
    (scorePhase s v).h_focal_distance = s.h_focal_distance := by
  unfold scorePhase; dsimp only; split_ifs <;> rfl

@[simp] theorem scorePhase_MAX (s : AFState α) (v : α) :
    (scorePhase s v).MAX_FOCUS_VALUE = s.MAX_FOCUS_VALUE := by
  unfold scorePhase; dsimp only; split_ifs <;> rfl

@[simp] theorem scorePhase_coarse_step_size (s : AFState α) (v : α) :
    (scorePhase s v).coarse_step_size = s.coarse_step_size := by
  unfold scorePhase; dsimp only; split_ifs <;> rfl

theorem scorePhase_h_max_index_cases (s : AFState α) (v : α) :
    (scorePhase s v).h_max_index = s.h_focal_distance ∨
    (scorePhase s v).h_max_index = s.h_max_index := by
  unfold scorePhase; dsimp only; split_ifs <;> simp

/-- The concrete coarse-stage state over integer scores that
`startFocus_hailo` produces for `end_point = 1100`, `starting_point = 0`. -/
def coarseInit : AFState Int := (startFocus_hailo okAct initState 1100 0).2.1

/-- C1.  For every controller state and every frame, one `stepFocus_hailo`
call performs at most one sharpness computation on the given frame and
commands the actuator at most once; no call iterates over several frames or
scan positions. -/
theorem stepFocus_hailo_single_score_single_set (act : Act) (s : AFState α)
    (frame : Option α) :
    (stepFocus_hailo act s frame).sets.length ≤ 1 ∧
    (stepFocus_hailo act s frame).scored ≤ 1 := by
  unfold stepFocus_hailo hailoInitStage
  dsimp only
  repeat' split
  all_goals simp

/-- C2 counterexample.  The code has no settle countdown: from the coarse
start state, the first step commands the actuator to 100, and the
immediately following step still performs a scoring and moves
`BestCandidate` from position 0 (value 5) to position 100 (value 50) — the
score arriving right after a `set()` is not ignored. -/
theorem settle_window_counterexample :
    (stepFocus_hailo okAct coarseInit (some (5 : Int))).sets = [100] ∧
    (stepFocus_hailo okAct coarseInit (some (5 : Int))).st.h_max_index = 0 ∧
    (stepFocus_hailo okAct coarseInit (some (5 : Int))).st.h_max_value = 5 ∧
    (stepFocus_hailo okAct
        (stepFocus_hailo okAct coarseInit (some (5 : Int))).st (some 50)).scored = 1 ∧
    (stepFocus_hailo okAct
        (stepFocus_hailo okAct coarseInit (some (5 : Int))).st (some 50)).st.h_max_index = 100 ∧
    (stepFocus_hailo okAct
        (stepFocus_hailo okAct coarseInit (some (5 : Int))).st (some 50)).st.h_max_value = 50 := by
  decide

/-- C2 amended.  The controller keeps no settle countdown: every
`stepFocus_hailo` call in an active stage (not `"idle"`, not `"done"`) with
a valid frame performs exactly one scoring, whose filtered value immediately
enters the `BestCandidate` comparison; no post-`set()` wait window exists. -/
theorem stepFocus_hailo_no_settle_scoring (act : Act) (s : AFState α) (v : α)
    (h1 : ¬ s.h_stage = "idle") (h2 : ¬ s.h_stage = "done") :
    (stepFocus_hailo act s (some v)).scored = 1 := by
  unfold stepFocus_hailo
  rw [if_neg (by rintro (h | h) <;> [exact h1 h; exact h2 h])]
  dsimp only [laplacian2]
  repeat' split
  all_goals rfl

/-- C2 amended witness at the coarse start state. -/
theorem stepFocus_hailo_no_settle_scoring_witness :
    (stepFocus_hailo okAct coarseInit (some (7 : Int))).scored = 1 :=
  stepFocus_hailo_no_settle_scoring okAct coarseInit 7 (by decide) (by decide)

/-- Outputs of successive `filter` calls threading the mutated buffer, as the
per-frame loop does. -/
def filterRun (buf : List α) : List α → List α
  | [] => []
  | v :: vs =>
    let r := filter buf v
    r.1 :: filterRun r.2 vs

/-- C3 counterexample.  Feeding raw scores 0, 10, 1 from an empty buffer,
the third `filter` output is 10 — the maximum of the last three samples —
whereas their median is 1. -/
theorem filter_median_counterexample :
    filterRun ([] : List Int) [0, 10, 1] = [0, 10, 10] ∧
    (filter [(0 : Int), 10] 1).1 = 10 ∧ (filter [(0 : Int), 10] 1).1 ≠ 1 := by
  decide

/-- Sorting three values ascending and taking index 2 yields their maximum. -/
theorem sort3_getD_two (a b v : α) :
    (List.insertionSort (· ≤ ·) [a, b, v]).getD 2 0 = max (max a b) v := by
  simp only [List.insertionSort, List.orderedInsert]
  rcases le_or_lt b v with h1 | h1
  · rw [if_pos h1]
    simp only [List.orderedInsert]
    rcases le_or_lt a b with h2 | h2
    · rw [if_pos h2]
      show v = max (max a b) v
      rw [max_eq_right (max_le (h2.trans h1) h1)]
    · rw [if_neg h2.not_le]
      rcases le_or_lt a v with h3 | h3
      · rw [if_pos h3]
        show v = max (max a b) v
        rw [max_eq_right (max_le h3 h1)]
      · rw [if_neg h3.not_le]
        show a = max (max a b) v
        rw [max_eq_left h2.le, max_eq_left h3.le]
  · rw [if_neg h1.not_le]
    simp only [List.orderedInsert]
    rcases le_or_lt a v with h4 | h4
    · rw [if_pos h4]
      show b = max (max a b) v
      rw [max_eq_right (h4.trans h1.le), max_eq_left h1.le]
    · rw [if_neg h4.not_le]
      rcases le_or_lt a b with h5 | h5
      · rw [if_pos h5]
        show b = max (max a b) v
        rw [max_eq_right h5, max_eq_left h1.le]
      · rw [if_neg h5.not_le]
        show a = max (max a b) v
        rw [max_eq_left h5.le, max_eq_left h4.le]

/-- C3 amended.  `filter` returns the raw value while fewer than two samples
are buffered, and once the window is full it returns the element at sorted
index `ceil(3/2) = 2`, i.e. the MAXIMUM of the last three raw scores, not
their median. -/
theorem filter_raw_then_max_of_three (value_buffer : List α) (v a b : α) :
    (value_buffer.length ≤ 1 → (filter value_buffer v).1 = v) ∧
    (value_buffer = [a, b] → (filter value_buffer v).1 = max (max a b) v) := by
  constructor
  · intro h
    unfold filter
    rw [if_neg (by simp; omega)]
  · rintro rfl
    unfold filter
    rw [if_pos (by simp)]
    exact sort3_getD_two a b v

/-- C3 amended witness: with two samples 3, 7 buffered, the call on raw
value 2 returns `max (max 3 7) 2 = 7`. -/
theorem filter_raw_then_max_of_three_witness :
    (filter [(3 : Int), 7] 2).1 = max (max 3 7) 2 :=
  (filter_raw_then_max_of_three [(3 : Int), 7] 2 3 7).2 rfl

/-- C7 counterexample.  A missing frame in the coarse stage does not make
`stepFocus_hailo` return `(false, null)`: the `cv2` error from the sharpness
computation propagates to the caller instead. -/
theorem invalid_frame_counterexample :
    (stepFocus_hailo okAct coarseInit (none : Option Int)).ret ≠
      Except.ok (false, none) ∧
    (stepFocus_hailo okAct coarseInit (none : Option Int)).ret =
      Except.error "cv2.error" := by
  decide

/-- C7 amended.  In an active stage a missing/malformed frame makes
`stepFocus_hailo` raise the sharpness-computation error to the caller; the
raise happens before any scoring, any state mutation and any actuator
command, so the call has no effect — but it does not return `(false, null)`. -/
theorem invalid_frame_raises_no_state_change (act : Act) (s : AFState α)
    (h1 : ¬ s.h_stage = "idle") (h2 : ¬ s.h_stage = "done") :
    stepFocus_hailo act s (none : Option α) =
      { ret := Except.error "cv2.error", st := s, sets := [], scored := 0 } := by
  unfold stepFocus_hailo
  rw [if_neg (by rintro (h | h) <;> [exact h1 h; exact h2 h])]
  rfl

/-- C7 amended witness at the coarse start state. -/
theorem invalid_frame_raises_no_state_change_witness :
    stepFocus_hailo okAct coarseInit (none : Option Int) =
      { ret := Except.error "cv2.error", st := coarseInit, sets := [], scored := 0 } :=
  invalid_frame_raises_no_state_change okAct coarseInit (by decide) (by decide)

/-- A constant-`(false, none)` mapped `Except` is never `ok (true, _)`. -/
theorem except_map_false_ne_true {ε β : Type} (x : Except ε β) (p : Int) :
    Except.map (fun _ => ((false : Bool), (none : Option Int))) x ≠
      Except.ok (true, some p) := by
  cases x <;> simp [Except.map]

/-- A step from a `"done"` state returns `(true, h_max_index)`, commands
nothing, scores nothing and leaves the state untouched. -/
theorem step_done_eq (act : Act) (s : AFState α) (frame : Option α)
    (h : s.h_stage = "done") :
    stepFocus_hailo act s frame =
      { ret := Except.ok (true, some s.h_max_index), st := s, sets := [], scored := 0 } := by
  unfold stepFocus_hailo
  rw [if_pos (Or.inr h), h]
  simp

/-- Iterating from a `"done"` state never moves: no commands, and every call
returns the same `(true, h_max_index)`. -/
theorem runSteps_done (act : Act) (s : AFState α) (frames : List (Option α))
    (h : s.h_stage = "done") :
    runSteps act s frames =
      (s, [], List.replicate frames.length (Except.ok (true, some s.h_max_index))) := by
  induction frames with
  | nil => rfl
  | cons f fs ih =>
    show (let r := stepFocus_hailo act s f
          let rest := runSteps act r.st fs
          (rest.1, r.sets ++ rest.2.1, r.ret :: rest.2.2)) = _
    rw [step_done_eq act s f h]
    dsimp only
    rw [ih]
    simp [List.replicate_succ]

/-- A call whose return value is `ok (true, p)` has moved the state to
`"done"` with best index `p`. -/
theorem ret_true_done (act : Act) (s : AFState α) (frame : Option α) (p : Int)
    (h : (stepFocus_hailo act s frame).ret = Except.ok (true, some p)) :
    (stepFocus_hailo act s frame).st.h_stage = "done" ∧
    (stepFocus_hailo act s frame).st.h_max_index = p := by
  revert h
  unfold stepFocus_hailo hailoInitStage
  dsimp only
  repeat' split
  all_goals intro h
  all_goals first
    | exact absurd h (except_map_false_ne_true _ _)
    | simp_all

/-- C6.  Once a `stepFocus_hailo` call has returned `(true, p)`, every
subsequent call — whatever actuator and frames are supplied — returns the
same `(true, p)`, issues zero actuator commands and leaves the controller
state unchanged. -/
theorem stepFocus_hailo_done_idempotent (act : Act) (s : AFState α)
    (frame : Option α) (p : Int)
    (h : (stepFocus_hailo act s frame).ret = Except.ok (true, some p))
    (act2 : Act) (frames : List (Option α)) :
    runSteps act2 (stepFocus_hailo act s frame).st frames =
      ((stepFocus_hailo act s frame).st, [],
        List.replicate frames.length (Except.ok (true, some p))) := by
  obtain ⟨hd, hm⟩ := ret_true_done act s frame p h
  rw [runSteps_done act2 _ frames hd, hm]

/-- The `"done"` state with best index 42, for the C6 witness. -/
def doneState : AFState Int := { initState with h_stage := "done", h_max_index := 42 }

/-- C6 witness: from a state whose step returned `(true, 42)`, two further
calls (one even with a missing frame) keep returning `(true, 42)` with no
commands and no state change. -/
theorem stepFocus_hailo_done_idempotent_witness :
    runSteps okAct (stepFocus_hailo okAct doneState none).st [none, some 3] =
      ((stepFocus_hailo okAct doneState none).st, [],
        List.replicate 2 (Except.ok (true, some 42))) :=
  stepFocus_hailo_done_idempotent okAct doneState none 42 (by decide) okAct [none, some 3]

/-- C10.  On the call that completes the fine stage (any non-coarse active
stage whose termination condition fires after scoring), the controller
issues exactly one actuator command, to the best position recorded by that
stage, returns `(true, best)` on that same call, and moves to `"done"`. -/
theorem fine_completion_single_set (act : Act) (s : AFState α) (v : α)
    (hf : s.h_stage = "fine") (hend : stageShouldEnd (scorePhase s v))
    (hact : act (scorePhase s v).h_max_index = Except.ok ()) :
    stepFocus_hailo act s (some v) =
      { ret := Except.ok (true, some (scorePhase s v).h_max_index)
        st := { scorePhase s v with h_stage := "done" }
        sets := [(scorePhase s v).h_max_index]
        scored := 1 } := by
  unfold stepFocus_hailo
  rw [if_neg (by rw [hf]; rintro (h | h) <;> exact absurd h (by decide))]
  dsimp only [laplacian2]
  rw [if_pos hend, if_neg (by rw [scorePhase_h_stage, hf]; decide), hact]

/-- A fine-stage state whose position counter has passed the range bound,
for the C10 witness. -/
def fineEndState : AFState Int :=
  { (initState : AFState Int) with
    h_stage := "fine"
    h_step := 3
    h_threshold := 1
    h_max_dec_count := 3
    h_max_index := 9
    h_max_value := 5
    h_last_value := 5
    h_focal_distance := 12
    MAX_FOCUS_VALUE := 10
    value_buffer := [4, 5] }

/-- C10 witness at a concrete fine-stage completion call. -/
theorem fine_completion_single_set_witness :
    stepFocus_hailo okAct fineEndState (some (1 : Int)) =
      { ret := Except.ok (true, some (scorePhase fineEndState (1 : Int)).h_max_index)
        st := { scorePhase fineEndState (1 : Int) with h_stage := "done" }
        sets := [(scorePhase fineEndState (1 : Int)).h_max_index]
        scored := 1 } :=
  fine_completion_single_set okAct fineEndState 1 rfl (by decide) rfl

/-- A degenerate-free fine-type stage over window `(0, 10, 3)` for the C4
counterexample: `hailoInitStage` commands the start and the run feeds five
strictly increasing scores. -/
def windowInit : Except String Unit × AFState Int × List Int :=
  hailoInitStage okAct ({ (initState : AFState Int) with MAX_FOCUS_VALUE := 10 })
    3 1 3 0 "fine"

/-- The C4 counterexample run over window `(0, 10, 3)`. -/
def windowRun : AFState Int × List Int × List (Except String (Bool × Option Int)) :=
  runSteps okAct windowInit.2.1 [some 1, some 2, some 3, some 4, some 5]

/-- C4 counterexample.  For the window `(start, end, step) = (0, 10, 3)` with
`start ≤ end`, `step > 0` and `end − start` not a multiple of `step`, the
stage never samples `end = 10` (neither the stage-start command nor any
per-step command hits it), yet its final sample — reported and commanded as
the best — is position `12`, past `end`. -/
theorem scan_end_sample_counterexample :
    (10 : Int) ∉ windowInit.2.2 ++ windowRun.2.1 ∧
    (12 : Int) ∈ windowRun.2.1 ∧
    windowRun.2.2.getLast? = some (Except.ok (true, some 12)) := by
  decide

/-- C4 amended.  A mid-stage advancing call (one that returns `(false, none)`
and keeps the stage tag) commands exactly `h_focal_distance + h_step`, and
such commands never pass `MAX_FOCUS_VALUE`; there is no clamping of the final
sample to the window end — `end` is sampled only when `end − start` is a
multiple of the step, and the terminating call attributes its score (and may
command the best) up to one step past `end`. -/
theorem advance_command_bounded (act : Act) (s : AFState α) (frame : Option α)
    (p : Int)
    (hret : (stepFocus_hailo act s frame).ret = Except.ok (false, none))
    (hstage : (stepFocus_hailo act s frame).st.h_stage = s.h_stage)
    (hp : p ∈ (stepFocus_hailo act s frame).sets) :
    p = s.h_focal_distance + s.h_step ∧ p ≤ s.MAX_FOCUS_VALUE := by
  revert hret hstage hp
  unfold stepFocus_hailo hailoInitStage
  dsimp only
  repeat' split
  all_goals intro hret hstage hp
  all_goals simp_all [Except.map]

/-- C4 amended witness: the first coarse call advances from 0 by 100 and
commands 100 ≤ 1100. -/
theorem advance_command_bounded_witness :
    (100 : Int) = coarseInit.h_focal_distance + coarseInit.h_step ∧
    (100 : Int) ≤ coarseInit.MAX_FOCUS_VALUE :=
  advance_command_bounded okAct coarseInit (some 5) 100 (by decide) (by decide)
    (by decide)

/-- Coarse session start over `[0, 400]` used by the C5 counterexample. -/
def c5Init : AFState Int := (startFocus_hailo okAct (initState : AFState Int) 400 0).2.1

/-- Frames for the C5 counterexample: one sharp frame at the scan start, then
uniformly flat scores. -/
def c5Frames : List (Option Int) := some 10 :: List.replicate 26 (some 1)

/-- The C5 counterexample session. -/
def c5Run : AFState Int × List Int × List (Except String (Bool × Option Int)) :=
  runSteps okAct c5Init c5Frames

/-- C5 counterexample.  In a session over `[0, 400]` whose coarse best is
`p* = 0` (the sharpest frame is the first), the fine stage starts at
`max(p* − 100, 0) = 0` but keeps scanning to the global `MAX_FOCUS_VALUE`:
it commands position 105, which lies outside `[p* − margin, p* + margin]`
for `margin = coarseStep = 100`. -/
theorem fine_window_counterexample :
    (runSteps okAct c5Init (c5Frames.take 5)).1.h_max_index = 0 ∧
    (runSteps okAct c5Init (c5Frames.take 6)).1.h_stage = "fine" ∧
    (runSteps okAct c5Init (c5Frames.take 6)).1.h_focal_distance = 0 ∧
    (105 : Int) ∈ c5Run.2.1 ∧ ¬ ((105 : Int) ≤ 0 + 100) := by
  decide

/-- C5 amended.  When the coarse stage terminates with best `p*` (the
post-scoring `h_max_index`), the fine stage starts at
`max(p* − coarse_step_size, 0)` — the clamp below is to 0 — with step 5, and
its only upper bound is the unchanged `MAX_FOCUS_VALUE`; no `p* + margin`
bound exists. -/
theorem coarse_to_fine_window (act : Act) (s : AFState α) (v : α)
    (hc : s.h_stage = "coarse") (hend : stageShouldEnd (scorePhase s v)) :
    (stepFocus_hailo act s (some v)).st.h_stage = "fine" ∧
    (stepFocus_hailo act s (some v)).st.h_step = 5 ∧
    (stepFocus_hailo act s (some v)).st.h_focal_distance =
      max ((scorePhase s v).h_max_index - s.coarse_step_size) 0 ∧
    (stepFocus_hailo act s (some v)).st.h_max_index =
      max ((scorePhase s v).h_max_index - s.coarse_step_size) 0 ∧
    (stepFocus_hailo act s (some v)).st.MAX_FOCUS_VALUE = s.MAX_FOCUS_VALUE ∧
    (stepFocus_hailo act s (some v)).sets =
      [max ((scorePhase s v).h_max_index - s.coarse_step_size) 0] := by
  unfold stepFocus_hailo hailoInitStage
  rw [if_neg (by rw [hc]; rintro (h | h) <;> exact absurd h (by decide))]
  dsimp only [laplacian2]
  rw [if_pos hend, if_pos (by rw [scorePhase_h_stage, hc])]
  dsimp only
  have hm : (if (scorePhase s v).h_max_index - (scorePhase s v).coarse_step_size < 0
        then 0 else (scorePhase s v).h_max_index - (scorePhase s v).coarse_step_size) =
      max ((scorePhase s v).h_max_index - s.coarse_step_size) 0 := by
    rw [scorePhase_coarse_step_size]
    rcases le_or_lt 0 ((scorePhase s v).h_max_index - s.coarse_step_size) with h | h
    · rw [if_neg (not_lt.mpr h), max_eq_left h]
    · rw [if_pos h, max_eq_right h.le]
  exact ⟨rfl, rfl, hm, hm, scorePhase_MAX s v, by rw [hm]⟩

/-- C5 amended witness at the transition call of the C5 session (the sixth
frame ends the coarse stage with `p* = 0`). -/
theorem coarse_to_fine_window_witness :
    (stepFocus_hailo okAct (runSteps okAct c5Init (c5Frames.take 5)).1
        (some (1 : Int))).st.h_stage = "fine" ∧
    (stepFocus_hailo okAct (runSteps okAct c5Init (c5Frames.take 5)).1
        (some (1 : Int))).st.h_step = 5 ∧
    (stepFocus_hailo okAct (runSteps okAct c5Init (c5Frames.take 5)).1
        (some (1 : Int))).st.h_focal_distance =
      max ((scorePhase (runSteps okAct c5Init (c5Frames.take 5)).1 (1 : Int)).h_max_index -
        (runSteps okAct c5Init (c5Frames.take 5)).1.coarse_step_size) 0 ∧
    (stepFocus_hailo okAct (runSteps okAct c5Init (c5Frames.take 5)).1
        (some (1 : Int))).st.h_max_index =
      max ((scorePhase (runSteps okAct c5Init (c5Frames.take 5)).1 (1 : Int)).h_max_index -
        (runSteps okAct c5Init (c5Frames.take 5)).1.coarse_step_size) 0 ∧
    (stepFocus_hailo okAct (runSteps okAct c5Init (c5Frames.take 5)).1
        (some (1 : Int))).st.MAX_FOCUS_VALUE =
      (runSteps okAct c5Init (c5Frames.take 5)).1.MAX_FOCUS_VALUE ∧
    (stepFocus_hailo okAct (runSteps okAct c5Init (c5Frames.take 5)).1
        (some (1 : Int))).sets =
      [max ((scorePhase (runSteps okAct c5Init (c5Frames.take 5)).1 (1 : Int)).h_max_index -
        (runSteps okAct c5Init (c5Frames.take 5)).1.coarse_step_size) 0] :=
  coarse_to_fine_window okAct (runSteps okAct c5Init (c5Frames.take 5)).1 1
    (by decide) (by decide)

/-- An actuator whose bus writes always fail. -/
def badAct : Act := fun _ => Except.error "i2c write failed"

/-- Whether an `Except` result is a success. -/
def exceptIsOk {ε β : Type} : Except ε β → Bool
  | Except.ok _ => true
  | Except.error _ => false

/-- With a working actuator and a valid frame, a step never returns an error,
whatever the state. -/
theorem step_okAct_isOk (s : AFState α) (v : α) :
    exceptIsOk (stepFocus_hailo okAct s (some v)).ret = true := by
  unfold stepFocus_hailo hailoInitStage
  dsimp only [laplacian2, okAct]
  repeat' split
  all_goals rfl

/-- C8 counterexample.  A failing actuator write during a coarse step
surfaces as an exception, but the controller does not enter any Error stage:
its stage tag is still `"coarse"`, and the very next call with a healthy
actuator scans on normally, commanding position 200 and returning
`(false, none)` rather than an error indicator. -/
theorem actuator_fault_counterexample :
    (stepFocus_hailo badAct coarseInit (some (5 : Int))).ret =
      Except.error "i2c write failed" ∧
    (stepFocus_hailo badAct coarseInit (some (5 : Int))).st.h_stage = "coarse" ∧
    (stepFocus_hailo okAct
        (stepFocus_hailo badAct coarseInit (some (5 : Int))).st (some 6)).ret =
      Except.ok (false, none) ∧
    (stepFocus_hailo okAct
        (stepFocus_hailo badAct coarseInit (some (5 : Int))).st (some 6)).sets =
      [200] := by
  decide

/-- C8 amended.  An actuator failure raises out of `stepFocus_hailo` to the
caller (with the mutations already made kept), but there is no Error stage:
after any call the stage tag is still one of idle/coarse/fine/done, and a
subsequent call with a working actuator and a valid frame proceeds without
error — the controller keeps scanning as if nothing happened. -/
theorem no_error_stage_scan_continues (act : Act) (s : AFState α)
    (frame : Option α) (v : α)
    (h : s.h_stage = "idle" ∨ s.h_stage = "coarse" ∨ s.h_stage = "fine" ∨
      s.h_stage = "done") :
    ((stepFocus_hailo act s frame).st.h_stage = "idle" ∨
      (stepFocus_hailo act s frame).st.h_stage = "coarse" ∨
      (stepFocus_hailo act s frame).st.h_stage = "fine" ∨
      (stepFocus_hailo act s frame).st.h_stage = "done") ∧
    exceptIsOk (stepFocus_hailo okAct (stepFocus_hailo act s frame).st (some v)).ret =
      true := by
  refine ⟨?_, step_okAct_isOk _ v⟩
  revert h
  unfold stepFocus_hailo hailoInitStage
  dsimp only
  repeat' split
  all_goals intro h
  all_goals simp_all

/-- C8 amended witness: the faulting coarse step of the counterexample state
keeps the stage in the four scan tags and the follow-up call succeeds. -/
theorem no_error_stage_scan_continues_witness :
    ((stepFocus_hailo badAct coarseInit (some (5 : Int))).st.h_stage = "idle" ∨
      (stepFocus_hailo badAct coarseInit (some (5 : Int))).st.h_stage = "coarse" ∨
      (stepFocus_hailo badAct coarseInit (some (5 : Int))).st.h_stage = "fine" ∨
      (stepFocus_hailo badAct coarseInit (some (5 : Int))).st.h_stage = "done") ∧
    exceptIsOk (stepFocus_hailo okAct
        (stepFocus_hailo badAct coarseInit (some (5 : Int))).st (some 6)).ret =
      true :=
  no_error_stage_scan_continues badAct coarseInit (some 5) 6 (by decide)

/-- The best index after scoring stays within `[0, h_focal_distance]` when it
started there. -/
theorem scorePhase_h_max_index_bounds (s : AFState α) (v : α)
    (h0 : 0 ≤ s.h_max_index) (hle : s.h_max_index ≤ s.h_focal_distance)
    (hfd : 0 ≤ s.h_focal_distance) :
    0 ≤ (scorePhase s v).h_max_index ∧
    (scorePhase s v).h_max_index ≤ s.h_focal_distance := by
  rcases scorePhase_h_max_index_cases s v with h | h <;> rw [h] <;> omega

/-- States reachable in a session started at a nonnegative position with a
nonnegative range bound: positive step, positions within one step of the
bound, best index below the position counter, and the coarse stage running
at `coarse_step_size`. -/
def Inv (s : AFState α) : Prop :=
  0 < s.h_step ∧ 0 ≤ s.MAX_FOCUS_VALUE ∧ 0 ≤ s.h_focal_distance ∧
  0 ≤ s.h_max_index ∧ s.h_max_index ≤ s.h_focal_distance ∧
  s.h_focal_distance ≤ s.MAX_FOCUS_VALUE + s.h_step ∧
  (s.h_stage = "coarse" → s.h_step = s.coarse_step_size)

instance (s : AFState α) : Decidable (Inv s) := by
  unfold Inv; infer_instance

/-- Session start over `[0, 1103]` for the C9 counterexample. -/
def c9Init : AFState Int := (startFocus_hailo okAct (initState : AFState Int) 1103 0).2.1

/-- Strictly increasing scores 1..15 for the C9 counterexample. -/
def c9Frames : List (Option Int) := (List.range 15).map (fun i => some ((i : Int) + 1))

/-- The C9 counterexample session. -/
def c9Run : AFState Int × List Int × List (Except String (Bool × Option Int)) :=
  runSteps okAct c9Init c9Frames

/-- C9 counterexample.  A session over `[0, 1103]` with strictly increasing
sharpness commands position 1105 > MAX_FOCUS_VALUE on completion: the
overshoot position is scored before the range check, recorded as best, and
commanded as the final position. -/
theorem command_range_counterexample :
    c9Init.MAX_FOCUS_VALUE = 1103 ∧
    (1105 : Int) ∈ c9Run.2.1 ∧ ¬ ((1105 : Int) ≤ 1103) ∧
    c9Run.2.2.getLast? = some (Except.ok (true, some 1105)) ∧
    c9Run.1.h_stage = "done" := by
  decide

/-- C9 amended.  In any state satisfying the session invariant `Inv`, every
position a step commands is a nonnegative integer bounded by
`MAX_FOCUS_VALUE + h_step` (not by `MAX_FOCUS_VALUE`: the final completion
command can pass the bound by up to one stage step), and the invariant is
preserved. -/
theorem command_range_inv (act : Act) (s : AFState α) (frame : Option α) (p : Int)
    (hInv : Inv s) (hp : p ∈ (stepFocus_hailo act s frame).sets) :
    Inv (stepFocus_hailo act s frame).st ∧
    0 ≤ p ∧ p ≤ s.MAX_FOCUS_VALUE + s.h_step := by
  obtain ⟨h1, h2, h3, h4, h5, h6, h7⟩ := hInv
  revert hp
  unfold stepFocus_hailo hailoInitStage Inv
  dsimp only
  split
  · intro hp
    exact absurd hp (List.not_mem_nil p)
  · split
    · intro hp
      exact absurd hp (List.not_mem_nil p)
    · rename_i rawVal heqf
      obtain ⟨hb1, hb2⟩ := scorePhase_h_max_index_bounds s rawVal h4 h5 h3
      split
      · split
        · -- the coarse stage hands over to the fine stage
          rename_i hend hcoarse
          have hcs : s.h_step = s.coarse_step_size :=
            h7 (by rw [← scorePhase_h_stage s rawVal]; exact hcoarse)
          have hfd := scorePhase_h_focal_distance s rawVal
          have hcss := scorePhase_coarse_step_size s rawVal
          intro hp
          rw [List.mem_singleton] at hp
          subst hp
          dsimp only
          refine ⟨⟨by norm_num, ?_, ?_, ?_, ?_, ?_, ?_⟩, ?_, ?_⟩
          · simpa using h2
          · split_ifs <;> omega
          · split_ifs <;> omega
          · split_ifs <;> omega
          · simp only [scorePhase_MAX]
            split_ifs <;> omega
          · intro hx
            exact absurd hx (by decide)
          · split_ifs <;> omega
          · split_ifs <;> omega
        · -- a non-coarse stage terminates: the best position is commanded
          rename_i hend hnc
          have hfd := scorePhase_h_focal_distance s rawVal
          have hstep := scorePhase_h_step s rawVal
          have hmax := scorePhase_MAX s rawVal
          have hcss := scorePhase_coarse_step_size s rawVal
          split
          · intro hp
            rw [List.mem_singleton] at hp
            subst hp
            dsimp only
            refine ⟨⟨?_, ?_, ?_, ?_, ?_, ?_, ?_⟩, ?_, ?_⟩ <;>
              first
                | (intro hx; exact absurd hx (by decide))
                | omega
          · intro hp
            rw [List.mem_singleton] at hp
            subst hp
            dsimp only
            refine ⟨⟨?_, ?_, ?_, ?_, ?_, ?_, ?_⟩, ?_, ?_⟩
            · omega
            · omega
            · omega
            · omega
            · omega
            · omega
            · simp only [scorePhase_h_stage]
              intro hx
              rw [hstep, hcss]
              exact h7 hx
            · omega
            · omega
      · -- the stage advances one step
        rename_i hend
        have hnoend : ¬ stageShouldEnd (scorePhase s rawVal) := hend
        rw [stageShouldEnd] at hnoend
        push_neg at hnoend
        obtain ⟨hdec, hfdle⟩ := hnoend
        rw [scorePhase_MAX, scorePhase_h_focal_distance] at hfdle
        have hfd := scorePhase_h_focal_distance s rawVal
        have hstep := scorePhase_h_step s rawVal
        have hmax := scorePhase_MAX s rawVal
        have hcss := scorePhase_coarse_step_size s rawVal
        split
        · rename_i hin
          rw [scorePhase_h_focal_distance, scorePhase_h_step, scorePhase_MAX] at hin
          intro hp
          rw [List.mem_singleton] at hp
          subst hp
          dsimp only
          refine ⟨⟨?_, ?_, ?_, ?_, ?_, ?_, ?_⟩, ?_, ?_⟩
          · omega
          · omega
          · omega
          · omega
          · omega
          · omega
          · simp only [scorePhase_h_stage]
            intro hx
            rw [hstep, hcss]
            exact h7 hx
          · omega
          · omega
        · intro hp
          exact absurd hp (List.not_mem_nil p)

/-- C9 amended witness: the first coarse call from the default session start
commands 100, nonnegative and within `MAX_FOCUS_VALUE + h_step = 1200`. -/
theorem command_range_inv_witness :
    Inv (stepFocus_hailo okAct coarseInit (some (5 : Int))).st ∧
    0 ≤ (100 : Int) ∧
    (100 : Int) ≤ coarseInit.MAX_FOCUS_VALUE + coarseInit.h_step :=
  command_range_inv okAct coarseInit (some 5) 100 (by decide) (by decide)

end MerguiAF
